import Mathlib

/-!
Verification of the Dataframe Inspector module (`functions/summary.py`,
`functions/validators.py`, `functions/dfInspector.py`).

The tabular data model is embedded shallowly: a table is an ordered list of
named, typed columns; a cell is a rational number, a string, or a missing
value (`null`, standing for pandas `NaN`/`None`).  Machine floats are modelled
by rationals.  Fallible operations return `Except PyErr`, where `PyErr`
distinguishes the Python exception classes raised by the source
(`TypeError`, `ValueError`) from the untyped run-time failures
(`AttributeError`, `IndexError`) that arise when an operation without input
validation is applied to a non-table argument.
-/

namespace DFI

/-- Column type, as reported by pandas dtypes: `number` versus `object`
(categorical/text).  The source only ever dispatches on these two classes
(`select_dtypes(include='number')` and `select_dtypes(include=["object", "category"])`). -/
inductive Dtype where
  | numeric
  | object
deriving DecidableEq

/-- A single cell of a table: a numeric value, a string value, or a missing
value (pandas `NaN`/`None`). -/
inductive Cell where
  | num (q : ℚ)
  | str (s : String)
  | null
deriving DecidableEq

/-- A named, typed column: the unit of data every summary iterates over. -/
structure Column where
  name : String
  dtype : Dtype
  vals : List Cell
deriving DecidableEq

/-- A table (pandas `DataFrame`): an ordered list of columns.  Rows are
positionally aligned across columns. -/
structure Table where
  cols : List Column
deriving DecidableEq

/-- Number of rows (`df.shape[0]`, the length of the index): the common
length of the columns. -/
def Table.nrows (t : Table) : ℕ :=
  match t.cols with
  | [] => 0
  | c :: _ => c.vals.length

/-- Well-formedness: all columns have the table's row count.  pandas
maintains this invariant for every `DataFrame`. -/
def Table.WF (t : Table) : Prop := ∀ c ∈ t.cols, c.vals.length = t.nrows

instance : DecidablePred Table.WF := fun t =>
  inferInstanceAs (Decidable (∀ c ∈ t.cols, c.vals.length = t.nrows))

/-- The Python exception classes that the operations can raise.
`typeError` and `valueError` are the two typed errors of the validators;
`attributeError` and `indexError` model the untyped failures of attribute
access / tuple indexing on objects of the wrong type. -/
inductive PyErr where
  | typeError
  | valueError
  | attributeError
  | indexError
  | keyError
deriving DecidableEq

/-- A Python value passed as the dataframe argument: an actual `DataFrame`,
a `Series`, or some non-tabular object (represented by an integer). -/
inductive Obj where
  | df (t : Table)
  | series (c : Column)
  | intObj (k : ℤ)
deriving DecidableEq

/-- From `validators.validate_dataframe_or_series`: raises `TypeError` unless
the object is a DataFrame or Series. -/
def validate_dataframe_or_series (obj : Obj) : Except PyErr Unit :=
  match obj with
  | .df _ => .ok ()
  | .series _ => .ok ()
  | .intObj _ => .error .typeError

/-- From `validators.validate_dataframe`: raises `TypeError` unless the
object is a DataFrame. -/
def validate_dataframe (obj : Obj) : Except PyErr Unit :=
  match obj with
  | .df _ => .ok ()
  | _ => .error .typeError

/-- From `validators.validate_positive_integer`: raises `ValueError` unless
`n` is an integer with `n ≥ 1`.  (The argument is modelled as an integer;
the `isinstance(n, int)` half of the check is invisible here.) -/
def validate_positive_integer (n : ℤ) : Except PyErr Unit :=
  if n ≤ 0 then .error .valueError else .ok ()

/-- First `k` rows of every column (`df.head(k)`). -/
def takeTable (t : Table) (k : ℕ) : Table :=
  ⟨t.cols.map fun c => { c with vals := c.vals.take k }⟩

/-- Last `k` rows of every column (`df.tail(k)`). -/
def tailTable (t : Table) (k : ℕ) : Table :=
  ⟨t.cols.map fun c => { c with vals := c.vals.drop (c.vals.length - k) }⟩

/-- From `summary.head`: validate, then return the first `n` rows. -/
def head (df : Obj) (n : ℤ) : Except PyErr Obj := do
  validate_dataframe_or_series df
  validate_positive_integer n
  match df with
  | .df t => pure (.df (takeTable t n.toNat))
  | .series c => pure (.series { c with vals := c.vals.take n.toNat })
  | .intObj _ => throw .typeError

/-- From `summary.tail`: validate, then return the last `n` rows. -/
def tail (df : Obj) (n : ℤ) : Except PyErr Obj := do
  validate_dataframe_or_series df
  validate_positive_integer n
  match df with
  | .df t => pure (.df (tailTable t n.toNat))
  | .series c => pure (.series { c with vals := c.vals.drop (c.vals.length - n.toNat) })
  | .intObj _ => throw .typeError

/-- From `summary.head_info`: validates both arguments, then displays the
first `n` rows together with metadata.  The displayed row preview is
returned; the printed metadata is a side effect outside the model. -/
def head_info (df : Obj) (n : ℤ) : Except PyErr Obj := do
  validate_dataframe_or_series df
  validate_positive_integer n
  match df with
  | .df t => pure (.df (takeTable t n.toNat))
  | .series c => pure (.series { c with vals := c.vals.take n.toNat })
  | .intObj _ => throw .typeError

/-- From `dfInspector.head_info` (the earlier prototype in
`functions/dfInspector.py`): its own inline validation accepts any
non-negative `n` (`if not isinstance(n, int) or n < 0`), unlike
`validate_positive_integer`.  The displayed row preview is returned. -/
def dfInspector_head_info (df : Obj) (n : ℤ) : Except PyErr Obj :=
  match df with
  | .df t => if n < 0 then .error .valueError else .ok (.df (takeTable t n.toNat))
  | _ => .error .typeError

/-- From `summary.info`: validate, then print metadata (returns `None`). -/
def info (df : Obj) : Except PyErr Unit := do
  validate_dataframe df
  pure ()

/-- From `summary.sample_rows`: validate the frame and `n`, then delegate to
`df.sample`.  The sampled rows depend on the random state and are not
modelled; the validation prologue is the part the claims are about. -/
def sample_rows (df : Obj) (n : ℤ) : Except PyErr Unit := do
  validate_dataframe df
  validate_positive_integer n
  pure ()

/-- From `summary.describe`: validate the frame, then reject any `mode`
other than `'numerical'` or `'full'`.  The delegated `df.describe()` table
(means, standard deviations, ...) is outside the claims and not modelled. -/
def describe (df : Obj) (mode : String) : Except PyErr Unit := do
  validate_dataframe df
  if mode = "numerical" ∨ mode = "full" then pure () else throw .valueError

/-- Count of missing values in a column (`col.isnull().sum()`). -/
def countNull (vals : List Cell) : ℕ :=
  vals.countP fun c => c == Cell.null

/-- Distinct non-missing values of a column (`col.nunique()` counts these;
pandas `nunique` drops `NaN` by default). -/
def nunique (vals : List Cell) : ℕ :=
  ((vals.filter fun c => !(c == Cell.null)).dedup).length

/-- Descending-by-count order used by the summaries that sort
`ascending=False` on a count column. -/
def cdRel (a b : String × ℕ) : Prop := b.2 ≤ a.2

instance : DecidableRel cdRel := fun a b => inferInstanceAs (Decidable (b.2 ≤ a.2))

instance : IsTotal (String × ℕ) cdRel := ⟨fun a b => (le_total b.2 a.2).imp id id⟩

instance : IsTrans (String × ℕ) cdRel := ⟨fun _ _ _ hab hbc => le_trans hbc hab⟩

/-- Descending order on `(name, dtype, nunique)` triples used by
`columns_overview` (`sort_values(by="unique_values_count", ascending=False)`). -/
def cdRel3 (a b : String × Dtype × ℕ) : Prop := b.2.2 ≤ a.2.2

instance : DecidableRel cdRel3 := fun a b => inferInstanceAs (Decidable (b.2.2 ≤ a.2.2))

instance : IsTotal (String × Dtype × ℕ) cdRel3 := ⟨fun a b => (le_total b.2.2 a.2.2).imp id id⟩

instance : IsTrans (String × Dtype × ℕ) cdRel3 := ⟨fun _ _ _ hab hbc => le_trans hbc hab⟩

/-- From `summary.columns_overview`: dtype and distinct-value count per
column, sorted by distinct-value count descending. -/
def columns_overview (df : Obj) : Except PyErr (List (String × Dtype × ℕ)) := do
  validate_dataframe df
  match df with
  | .df t => pure (List.insertionSort cdRel3
      (t.cols.map fun c => (c.name, c.dtype, nunique c.vals)))
  | _ => throw .typeError

/-- The list of rows of a table: row `i` is the tuple of the `i`-th entry of
every column.  This is the object `df.duplicated()` compares on. -/
def rowList (t : Table) : List (List Cell) :=
  (List.range t.nrows).map fun i => t.cols.map fun c => c.vals.getD i Cell.null

/-- Number of elements of a list that are equal to some earlier element,
given a list of already-seen elements: the translation of
`df.duplicated().sum()` (a row is marked when it equals an earlier row). -/
def dupCountFrom {α : Type} [DecidableEq α] (seen : List α) : List α → ℕ
  | [] => 0
  | x :: xs => (if x ∈ seen then 1 else 0) + dupCountFrom (x :: seen) xs

/-- Number of distinct rows of a table. -/
def distinct_row_count (t : Table) : ℕ := (rowList t).dedup.length

/-- From `summary.duplicate_summary`: validate, then return
`df.duplicated().sum()`. -/
def duplicate_summary (df : Obj) : Except PyErr ℕ := do
  validate_dataframe df
  match df with
  | .df t => pure (dupCountFrom [] (rowList t))
  | _ => throw .typeError

/-- Result record of `summary.shape_summary` (the dictionary it builds). -/
structure ShapeSummary where
  rows : ℕ
  columns : ℕ
  total_size : ℕ
  column_names : List String
  missing_values_number : ℕ
  duplicated_rows : ℕ
deriving DecidableEq

/-- From `summary.shape_summary`: performs NO input validation.  On a
DataFrame it builds the shape dictionary; on an integer the very first
attribute access `df.shape` raises `AttributeError`; on a Series,
`df.shape[1]` raises `IndexError` (a Series shape is a 1-tuple). -/
def shape_summary (df : Obj) : Except PyErr ShapeSummary :=
  match df with
  | .df t => .ok
      { rows := t.nrows
        columns := t.cols.length
        total_size := t.nrows * t.cols.length
        column_names := t.cols.map fun c => c.name
        missing_values_number := (t.cols.map fun c => countNull c.vals).sum
        duplicated_rows := dupCountFrom [] (rowList t) }
  | .series _ => .error .indexError
  | .intObj _ => .error .attributeError

/-- One row of the `missing_summary` result frame. -/
structure MissingRow where
  colName : String
  missingCount : ℕ
  missingRatio : Option ℚ
  dtype : Dtype
deriving DecidableEq

/-- The frame built by `summary.missing_summary` on a DataFrame: one row per
column, in the table's column order, with the missing count, the missing
ratio `df.isnull().mean() * 100` (which is `NaN`, modelled as `none`, on a
zero-row table), and the dtype.  No filtering or sorting is applied. -/
def missing_rows (t : Table) : List MissingRow :=
  t.cols.map fun c =>
    { colName := c.name
      missingCount := countNull c.vals
      missingRatio :=
        if c.vals.length = 0 then none
        else some ((countNull c.vals : ℚ) / (c.vals.length : ℚ) * 100)
      dtype := c.dtype }

/-- From `summary.missing_summary`: performs NO input validation.  On a
non-DataFrame the body fails with an untyped error (`df.columns` on a
Series, `df.isnull` on an integer: both `AttributeError`). -/
def missing_summary (df : Obj) : Except PyErr (List MissingRow) :=
  match df with
  | .df t => .ok (missing_rows t)
  | _ => .error .attributeError

/-- String values of a column with missing values dropped
(`value_counts` operates on non-null entries). -/
def strVals (vals : List Cell) : List String :=
  vals.filterMap fun c =>
    match c with
    | .str s => some s
    | _ => none

/-- Distinct elements of a list in order of first appearance, skipping the
elements already `seen`. -/
def firstOccsFrom (seen : List String) : List String → List String
  | [] => []
  | x :: xs => if x ∈ seen then firstOccsFrom seen xs else x :: firstOccsFrom (x :: seen) xs

/-- Distinct elements of a list in order of first appearance: the key order
of the pandas value-counting hashtable before sorting. -/
def firstOccs (l : List String) : List String := firstOccsFrom [] l

/-- The distinct values of a column with their frequencies, in order of
first appearance (the insertion order of the counting hashtable). -/
def strCounts (vals : List Cell) : List (String × ℕ) :=
  (firstOccs (strVals vals)).map fun v => (v, (strVals vals).count v)

/-- `Series.value_counts()`: frequencies of the distinct values, stably
sorted by count descending (so equal counts keep first-appearance order). -/
def value_counts (vals : List Cell) : List (String × ℕ) :=
  List.insertionSort cdRel (strCounts vals)

/-- Python `round(q, 2)` on exact rationals: round half to even at the
second decimal place. -/
def roundHalfEven (q : ℚ) : ℤ :=
  if q - Int.floor q < 1/2 then Int.floor q
  else if 1/2 < q - Int.floor q then Int.floor q + 1
  else if Int.floor q % 2 = 0 then Int.floor q else Int.floor q + 1

/-- Rounding to two decimal places, as `round(pct, 2)` in the source. -/
def round2 (q : ℚ) : ℚ := (roundHalfEven (q * 100) : ℚ) / 100

/-- One record appended by `top_values_summary` for one frequent value. -/
structure TopEntry where
  column : String
  value : String
  count : ℕ
  percentage : ℚ
deriving DecidableEq

/-- The order of the final
`sort_values(by=["column", "count"], ascending=[True, False])`: column name
ascending, then count descending.  Multi-key `sort_values` is a stable
lexicographic sort in pandas. -/
def topRel (a b : TopEntry) : Prop :=
  a.column < b.column ∨ (a.column = b.column ∧ b.count ≤ a.count)

instance : DecidableRel topRel := fun a b =>
  inferInstanceAs (Decidable (a.column < b.column ∨ (a.column = b.column ∧ b.count ≤ a.count)))

instance : IsTotal TopEntry topRel := by
  constructor
  intro a b
  rcases lt_trichotomy a.column b.column with h | h | h
  · exact Or.inl (Or.inl h)
  · rcases le_total b.count a.count with hc | hc
    · exact Or.inl (Or.inr ⟨h, hc⟩)
    · exact Or.inr (Or.inr ⟨h.symm, hc⟩)
  · exact Or.inr (Or.inl h)

instance : IsTrans TopEntry topRel := by
  constructor
  intro a b c hab hbc
  rcases hab with h1 | ⟨h1, k1⟩
  · rcases hbc with h2 | ⟨h2, _⟩
    · exact Or.inl (lt_trans h1 h2)
    · exact Or.inl (h2 ▸ h1)
  · rcases hbc with h2 | ⟨h2, k2⟩
    · exact Or.inl (h1 ▸ h2)
    · exact Or.inr ⟨h1.trans h2, le_trans k2 k1⟩

/-- The entries contributed by one categorical column `c` of table `t` with
`top_n = k`: the first `k` value counts, each with its percentage of the
row count rounded to two decimals. -/
def colEntries (t : Table) (c : Column) (k : ℕ) : List TopEntry :=
  ((value_counts c.vals).take k).map fun p =>
    { column := c.name
      value := p.1
      count := p.2
      percentage := round2 ((p.2 : ℚ) / (t.nrows : ℚ) * 100) }

/-- The summary list built by the loop of `top_values_summary`, before the
final sort: categorical columns in original order, each contributing its
`colEntries`. -/
def top_entries (t : Table) (k : ℕ) : List TopEntry :=
  (t.cols.filter fun c => c.dtype == Dtype.object).flatMap fun c => colEntries t c k

/-- The final `pd.DataFrame(summary).sort_values(by=["column", "count"],
ascending=[True, False])`: when the loop appended no entry (no
object/category column, or only empty/all-null ones), the frame has no
columns and `sort_values` raises `KeyError: 'column'`; otherwise it is a
stable lexicographic sort by column name ascending then count
descending. -/
def sort_summary_frame (entries : List TopEntry) : Except PyErr (List TopEntry) :=
  if entries.isEmpty then .error .keyError
  else .ok (List.insertionSort topRel entries)

/-- From `summary.top_values_summary`: validate the frame and `top_n`, build
the per-column top-value entries, and sort the summary frame (which raises
`KeyError` when no entry was built). -/
def top_values_summary (df : Obj) (top_n : ℤ) : Except PyErr (List TopEntry) := do
  validate_dataframe df
  validate_positive_integer top_n
  match df with
  | .df t => sort_summary_frame (top_entries t top_n.toNat)
  | _ => throw .typeError

/-- Non-missing numeric values of a column, in order (pandas drops `NaN`
from quantile computations). -/
def numericVals (vals : List Cell) : List ℚ :=
  vals.filterMap fun c =>
    match c with
    | .num q => some q
    | _ => none

/-- Linear interpolation at fractional rank `h` into the sorted value list
`s`: pandas/numpy `quantile(p, interpolation='linear')` evaluates
`s[floor(h)] + (h - floor(h)) * (s[min(floor(h)+1, n-1)] - s[floor(h)])`. -/
def interpolate (s : List ℚ) (h : ℚ) : ℚ :=
  s.getD (Int.floor h).toNat 0
    + (h - ((Int.floor h).toNat : ℚ))
      * (s.getD (min ((Int.floor h).toNat + 1) (s.length - 1)) 0 - s.getD (Int.floor h).toNat 0)

/-- `Series.quantile(p)` over the non-missing values: `NaN` (here `none`) on
an empty series, otherwise linear interpolation at rank `p * (n - 1)` into
the sorted values. -/
def quantile (xs : List ℚ) (p : ℚ) : Option ℚ :=
  if xs.isEmpty then none
  else some (interpolate (xs.insertionSort (· ≤ ·)) (p * ((xs.length : ℚ) - 1)))

/-- Spec-side percentile, written from the spec's words: "compute Q1 (25th
percentile) and Q3 (75th percentile) using linear interpolation between
closest ranks" — the closest ranks of `h = p * (n - 1)` are `floor h` and
`ceil h`. -/
def specPercentile (xs : List ℚ) (p : ℚ) : Option ℚ :=
  if xs.isEmpty then none
  else
    some (((xs.insertionSort (· ≤ ·)).getD (Int.floor (p * ((xs.length : ℚ) - 1))).toNat 0)
      + (p * ((xs.length : ℚ) - 1) - (Int.floor (p * ((xs.length : ℚ) - 1)) : ℚ))
        * (((xs.insertionSort (· ≤ ·)).getD (Int.ceil (p * ((xs.length : ℚ) - 1))).toNat 0)
          - ((xs.insertionSort (· ≤ ·)).getD (Int.floor (p * ((xs.length : ℚ) - 1))).toNat 0)))

/-- The strict-outside test `(x < lower) | (x > upper)` of the source:
false on missing values (comparisons with `NaN` are `False` in pandas). -/
def isOutlierCell (lower upper : ℚ) : Cell → Bool
  | .num q => decide (q < lower) || decide (upper < q)
  | _ => false

/-- Outlier count of one numeric column for IQR multiplier `m`, exactly as
the loop body of `outlier_summary` computes it: `q1 = quantile 0.25`,
`q3 = quantile 0.75`, fences `q1 - m*(q3-q1)` and `q3 + m*(q3-q1)`, then
`((col < lower) | (col > upper)).sum()`.  When the column has no
non-missing value both quantiles are `NaN` and every comparison is
`False`, so the count is `0`. -/
def outlierCount (vals : List Cell) (m : ℚ) : ℕ :=
  match quantile (numericVals vals) (1/4), quantile (numericVals vals) (3/4) with
  | some q1, some q3 =>
      vals.countP (isOutlierCell (q1 - m * (q3 - q1)) (q3 + m * (q3 - q1)))
  | _, _ => 0

/-- Spec-side outlier count, written from the spec's words: quartiles by
linear interpolation between closest ranks over the non-missing values,
`IQR = Q3 - Q1`, fences `Q1 - multiplier*IQR` and `Q3 + multiplier*IQR`,
counting the non-missing values strictly outside the fences. -/
def spec_outlier_count (vals : List Cell) (m : ℚ) : ℕ :=
  match specPercentile (numericVals vals) (1/4), specPercentile (numericVals vals) (3/4) with
  | some q1, some q3 =>
      (numericVals vals).countP fun q =>
        decide (q < q1 - m * (q3 - q1)) || decide (q3 + m * (q3 - q1) < q)
  | _, _ => 0

/-- The result frame of `outlier_summary` on a DataFrame: one
`(column, outlier_count)` pair per numeric column, sorted by outlier count
descending. -/
def outlier_pairs (t : Table) (m : ℚ) : List (String × ℕ) :=
  List.insertionSort cdRel
    ((t.cols.filter fun c => c.dtype == Dtype.numeric).map fun c => (c.name, outlierCount c.vals m))

/-- From `summary.outlier_summary`: performs NO input validation.  On a
non-DataFrame the first call `df.select_dtypes` raises `AttributeError`
(neither `int` nor `Series` has that method). -/
def outlier_summary (df : Obj) (m : ℚ) : Except PyErr (List (String × ℕ)) :=
  match df with
  | .df t => .ok (outlier_pairs t m)
  | _ => .error .attributeError

/-- From `summary.full_summary`: performs NO input validation of its own.
On an integer the first call `df.head()` raises `AttributeError`; on a
Series `df.info()` raises `AttributeError`; on a DataFrame the only
fallible step is the `describe` mode check. -/
def full_summary (df : Obj) (mode : String) : Except PyErr Unit :=
  match df with
  | .df _ => describe df mode
  | _ => .error .attributeError

/-- State-threading form of `missing_summary` on a DataFrame: the result
together with the dataframe object after the call.  The body only calls
non-mutating pandas operations (`isnull`, `mean`, `dtypes`, frame
construction), so the table passes through unchanged. -/
def missing_summary_run (t : Table) : List MissingRow × Table :=
  (missing_rows t, t)

/-- State-threading form of `outlier_summary` on a DataFrame: quantiles and
comparisons read the column values and build a fresh result frame. -/
def outlier_summary_run (t : Table) (m : ℚ) : List (String × ℕ) × Table :=
  (outlier_pairs t m, t)

/-- State-threading form of `top_values_summary` on a DataFrame. -/
def top_values_summary_run (t : Table) (k : ℕ) : List TopEntry × Table :=
  (List.insertionSort topRel (top_entries t k), t)

/-- State-threading form of `duplicate_summary` on a DataFrame. -/
def duplicate_summary_run (t : Table) : ℕ × Table :=
  (dupCountFrom [] (rowList t), t)

/-- State-threading form of `shape_summary` on a DataFrame. -/
def shape_summary_run (t : Table) : ShapeSummary × Table :=
  ({ rows := t.nrows
     columns := t.cols.length
     total_size := t.nrows * t.cols.length
     column_names := t.cols.map fun c => c.name
     missing_values_number := (t.cols.map fun c => countNull c.vals).sum
     duplicated_rows := dupCountFrom [] (rowList t) }, t)

/-- State-threading form of `columns_overview` on a DataFrame. -/
def columns_overview_run (t : Table) : List (String × Dtype × ℕ) × Table :=
  (List.insertionSort cdRel3 (t.cols.map fun c => (c.name, c.dtype, nunique c.vals)), t)

/-- The spec's outlier example: a single numeric column `x = [1,2,3,4,100]`. -/
def exNumCol : Column := ⟨"x", Dtype.numeric, [.num 1, .num 2, .num 3, .num 4, .num 100]⟩

/-- Table holding `exNumCol`. -/
def exNumT : Table := ⟨[exNumCol]⟩

/-- The spec's top-values example: a single categorical column
`cat = ["a","a","b","c"]`. -/
def exCatCol : Column := ⟨"cat", Dtype.object, [.str ("a"), .str ("a"), .str ("b"), .str ("c")]⟩

/-- Table holding `exCatCol`. -/
def exCatT : Table := ⟨[exCatCol]⟩

/-- Counterexample table for the missing summary: column `a` has no missing
value, column `b` has one missing value out of two. -/
def exMColA : Column := ⟨"a", Dtype.numeric, [.num 1, .num 2]⟩

/-- Column with one missing value out of two. -/
def exMColB : Column := ⟨"b", Dtype.numeric, [.num 1, .null]⟩

/-- Two-column table for the missing-summary counterexample. -/
def exMT : Table := ⟨[exMColA, exMColB]⟩

/-- Counterexample column for the percentage-sum bound: seven rows, seven
distinct categorical values. -/
def ex7Col : Column :=
  ⟨"c", Dtype.object,
    [.str ("a"), .str ("b"), .str ("d"), .str ("e"), .str ("f"), .str ("g"), .str ("h")]⟩

/-- Table holding `ex7Col`. -/
def ex7T : Table := ⟨[ex7Col]⟩

/-- The entries `top_values_summary` reports on `ex7T` with `top_n = 7`:
each of the seven values has count `1` and reported percentage `14.29`. -/
def ex7Entries : List TopEntry :=
  [⟨"c", "a", 1, 1429/100⟩, ⟨"c", "b", 1, 1429/100⟩, ⟨"c", "d", 1, 1429/100⟩,
   ⟨"c", "e", 1, 1429/100⟩, ⟨"c", "f", 1, 1429/100⟩, ⟨"c", "g", 1, 1429/100⟩,
   ⟨"c", "h", 1, 1429/100⟩]

/-! ### Order facts about linear interpolation and quantiles -/

/-- Cast of `toNat` of a floor of a nonnegative rational. -/
lemma toNat_floor_cast {h : ℚ} (h0 : 0 ≤ h) :
    (((Int.floor h).toNat : ℚ)) = ((Int.floor h : ℤ) : ℚ) := by
  exact_mod_cast Int.toNat_of_nonneg (Int.floor_nonneg.mpr h0)

/-- In a sorted list, `getD` with default `0` is monotone on in-range indices. -/
lemma getD_le_getD_of_sorted {s : List ℚ} (hs : s.Sorted (· ≤ ·)) {i j : ℕ}
    (hij : i ≤ j) (hj : j < s.length) : s.getD i 0 ≤ s.getD j 0 := by
  have hi : i < s.length := Nat.lt_of_le_of_lt hij hj
  rw [List.getD_eq_get s 0 hi, List.getD_eq_get s 0 hj]
  exact hs.rel_get_of_le (Fin.mk_le_mk.mpr hij)

/-- The floor index of an in-range rank is in range. -/
lemma floor_toNat_le {s : List ℚ} (hne : s ≠ []) {h : ℚ}
    (hN : h ≤ (s.length : ℚ) - 1) : (Int.floor h).toNat ≤ s.length - 1 := by
  have hlen : 1 ≤ s.length := List.length_pos.mpr hne
  have hcast : ((s.length - 1 : ℕ) : ℚ) = (s.length : ℚ) - 1 := by
    rw [Nat.cast_sub hlen]; norm_num
  have : Int.floor h ≤ ((s.length - 1 : ℕ) : ℤ) := by
    have := Int.floor_mono (hcast ▸ hN)
    simpa using this
  exact Int.toNat_le.mpr this

/-- Linear interpolation at an in-range rank lies between the two bracketing
sorted values. -/
lemma interpolate_bounds {s : List ℚ} (hs : s.Sorted (· ≤ ·)) (hne : s ≠ [])
    {h : ℚ} (h0 : 0 ≤ h) (hN : h ≤ (s.length : ℚ) - 1) :
    s.getD (Int.floor h).toNat 0 ≤ interpolate s h
    ∧ interpolate s h ≤ s.getD (min ((Int.floor h).toNat + 1) (s.length - 1)) 0 := by
  have hlen : 1 ≤ s.length := List.length_pos.mpr hne
  have hloN : (Int.floor h).toNat ≤ s.length - 1 := floor_toNat_le hne hN
  have hminN : min ((Int.floor h).toNat + 1) (s.length - 1) < s.length :=
    Nat.lt_of_le_of_lt (min_le_right _ _) (Nat.sub_lt (Nat.lt_of_lt_of_le Nat.zero_lt_one hlen) Nat.zero_lt_one)
  have hle : (Int.floor h).toNat ≤ min ((Int.floor h).toNat + 1) (s.length - 1) :=
    le_min (Nat.le_succ _) hloN
  have hvals : s.getD (Int.floor h).toNat 0 ≤ s.getD (min ((Int.floor h).toNat + 1) (s.length - 1)) 0 :=
    getD_le_getD_of_sorted hs hle hminN
  have hfrac0 : 0 ≤ h - ((Int.floor h).toNat : ℚ) := by
    rw [toNat_floor_cast h0]
    have := Int.floor_le h
    linarith
  have hfrac1 : h - ((Int.floor h).toNat : ℚ) ≤ 1 := by
    rw [toNat_floor_cast h0]
    have := Int.lt_floor_add_one h
    push_cast at this ⊢
    linarith
  constructor
  · unfold interpolate
    nlinarith [mul_nonneg hfrac0 (sub_nonneg.mpr hvals)]
  · unfold interpolate
    nlinarith [mul_le_mul_of_nonneg_right hfrac1 (sub_nonneg.mpr hvals)]

/-- Linear interpolation into a sorted list is monotone in the rank. -/
lemma interpolate_mono {s : List ℚ} (hs : s.Sorted (· ≤ ·)) (hne : s ≠ [])
    {h1 h2 : ℚ} (h10 : 0 ≤ h1) (h12 : h1 ≤ h2) (h2N : h2 ≤ (s.length : ℚ) - 1) :
    interpolate s h1 ≤ interpolate s h2 := by
  have h20 : 0 ≤ h2 := le_trans h10 h12
  have h1N : h1 ≤ (s.length : ℚ) - 1 := le_trans h12 h2N
  have hlo12 : (Int.floor h1).toNat ≤ (Int.floor h2).toNat :=
    Int.toNat_le_toNat (Int.floor_mono h12)
  rcases Nat.eq_or_lt_of_le hlo12 with heq | hlt
  · have hb1 := interpolate_bounds hs hne h10 h1N
    have hb2 := interpolate_bounds hs hne h20 h2N
    unfold interpolate
    rw [heq]
    have hvals : s.getD (Int.floor h2).toNat 0
        ≤ s.getD (min ((Int.floor h2).toNat + 1) (s.length - 1)) 0 := by
      apply getD_le_getD_of_sorted hs
      · exact le_min (Nat.le_succ _) (floor_toNat_le hne h2N)
      · exact Nat.lt_of_le_of_lt (min_le_right _ _)
          (Nat.sub_lt (Nat.lt_of_lt_of_le Nat.zero_lt_one (List.length_pos.mpr hne)) Nat.zero_lt_one)
    have hmul := mul_le_mul_of_nonneg_right
      (sub_le_sub_right h12 (((Int.floor h2).toNat : ℚ))) (sub_nonneg.mpr hvals)
    linarith
  · have hb1 := (interpolate_bounds hs hne h10 h1N).2
    have hb2 := (interpolate_bounds hs hne h20 h2N).1
    refine le_trans hb1 (le_trans ?_ hb2)
    apply getD_le_getD_of_sorted hs
    · exact le_trans (min_le_left _ _) hlt
    · exact Nat.lt_of_le_of_lt (floor_toNat_le hne h2N)
        (Nat.sub_lt (Nat.lt_of_lt_of_le Nat.zero_lt_one (List.length_pos.mpr hne)) Nat.zero_lt_one)

/-- For `0 ≤ p1 ≤ p2 ≤ 1` and a nonempty value list, both quantiles exist
and are ordered. -/
lemma quantile_le_quantile (xs : List ℚ) (hne : xs ≠ []) (p1 p2 : ℚ)
    (hp0 : 0 ≤ p1) (hp12 : p1 ≤ p2) (hp21 : p2 ≤ 1) :
    ∃ a b, quantile xs p1 = some a ∧ quantile xs p2 = some b ∧ a ≤ b := by
  have hE : ¬ (xs.isEmpty = true) := by
    cases xs with
    | nil => exact absurd rfl hne
    | cons x xs => simp
  have hlen : 1 ≤ xs.length := List.length_pos.mpr hne
  have hL0 : (0:ℚ) ≤ (xs.length : ℚ) - 1 := by
    have : (1:ℚ) ≤ (xs.length : ℚ) := by exact_mod_cast hlen
    linarith
  have hsorted : (xs.insertionSort (· ≤ ·)).Sorted (· ≤ ·) :=
    List.sorted_insertionSort (· ≤ ·) xs
  have hslen : (xs.insertionSort (· ≤ ·)).length = xs.length :=
    List.length_insertionSort (· ≤ ·) xs
  have hsne : xs.insertionSort (· ≤ ·) ≠ [] := by
    intro hcon
    rw [hcon] at hslen
    simp at hslen
    rw [← hslen] at hlen
    exact absurd hlen (by norm_num)
  have hq1 : quantile xs p1
      = some (interpolate (xs.insertionSort (· ≤ ·)) (p1 * ((xs.length : ℚ) - 1))) := by
    rw [quantile, if_neg hE]
  have hq2 : quantile xs p2
      = some (interpolate (xs.insertionSort (· ≤ ·)) (p2 * ((xs.length : ℚ) - 1))) := by
    rw [quantile, if_neg hE]
  refine ⟨_, _, hq1, hq2, ?_⟩
  apply interpolate_mono hsorted hsne
  · exact mul_nonneg hp0 hL0
  · exact mul_le_mul_of_nonneg_right hp12 hL0
  · rw [hslen]
    nlinarith

/-- Widening the IQR fences can only lose outliers: the per-column outlier
count is antitone in the multiplier. -/
lemma outlierCount_anti (vals : List Cell) {m1 m2 : ℚ} (h : m1 ≤ m2) :
    outlierCount vals m2 ≤ outlierCount vals m1 := by
  by_cases hx : numericVals vals = []
  · have hq : quantile (numericVals vals) (1/4) = none := by
      rw [hx, quantile]
      simp
    rw [outlierCount, outlierCount, hq]
  · obtain ⟨a, b, ha, hb, hab⟩ :=
      quantile_le_quantile (numericVals vals) hx (1/4) (3/4)
        (by norm_num) (by norm_num) (by norm_num)
    rw [outlierCount, outlierCount, ha, hb]
    apply List.countP_mono_left
    intro c _ hc
    have hiqr : 0 ≤ b - a := sub_nonneg.mpr hab
    have hlow : a - m2 * (b - a) ≤ a - m1 * (b - a) := by nlinarith
    have hup : b + m1 * (b - a) ≤ b + m2 * (b - a) := by nlinarith
    cases c with
    | num q =>
        simp only [isOutlierCell, Bool.or_eq_true, decide_eq_true_eq] at hc ⊢
        rcases hc with hc | hc
        · exact Or.inl (lt_of_lt_of_le hc hlow)
        · exact Or.inr (lt_of_le_of_lt hup hc)
    | str s => simp [isOutlierCell] at hc
    | null => simp [isOutlierCell] at hc

/-- Counting over the extracted numeric values equals counting over the raw
cells with non-numeric cells rejected. -/
lemma countP_numericVals (vals : List Cell) (p : ℚ → Bool) :
    (numericVals vals).countP p = vals.countP fun c =>
      match c with
      | .num q => p q
      | _ => false := by
  induction vals with
  | nil => rfl
  | cons c cs ih =>
      cases c with
      | num q =>
          simp only [numericVals, List.filterMap_cons, List.countP_cons] at ih ⊢
          omega
      | str s => simpa [numericVals, List.filterMap_cons, List.countP_cons] using ih
      | null => simpa [numericVals, List.filterMap_cons, List.countP_cons] using ih

/-- Interpolation between the two closest ranks (floor and ceiling), as the
spec words it, agrees with the implementation form that clamps
`floor + 1` to the last index, on every in-range rank. -/
lemma interp_closest_ranks (s : List ℚ) {h : ℚ} (h0 : 0 ≤ h)
    (hN : h ≤ (s.length : ℚ) - 1) :
    s.getD (Int.floor h).toNat 0
      + (h - ((Int.floor h : ℤ) : ℚ))
        * (s.getD (Int.ceil h).toNat 0 - s.getD (Int.floor h).toNat 0)
    = interpolate s h := by
  by_cases hfrac : h = ((Int.floor h : ℤ) : ℚ)
  · have hz : h - ((Int.floor h : ℤ) : ℚ) = 0 := by rw [← hfrac]; ring
    rw [interpolate, toNat_floor_cast h0, hz]
    ring
  · have hflt : ((Int.floor h : ℤ) : ℚ) < h :=
      lt_of_le_of_ne (Int.floor_le h) fun hcon => hfrac hcon.symm
    have hceil : Int.ceil h = Int.floor h + 1 := by
      have h1 : Int.floor h ≤ Int.ceil h := Int.floor_le_ceil h
      have h2 : Int.ceil h ≤ Int.floor h + 1 := Int.ceil_le_floor_add_one h
      rcases eq_or_lt_of_le h1 with heq | _
      · exfalso
        apply hfrac
        have hge : h ≤ ((Int.ceil h : ℤ) : ℚ) := Int.le_ceil h
        rw [← heq] at hge
        linarith
      · omega
    have hf0 : (0:ℤ) ≤ Int.floor h := Int.floor_nonneg.mpr h0
    have hfltZ : Int.floor h < ((s.length : ℤ)) - 1 := by
      have hq : ((Int.floor h : ℤ) : ℚ) < ((((s.length : ℤ) - 1 : ℤ)) : ℚ) := by
        push_cast
        linarith
      exact_mod_cast hq
    have hmin : min ((Int.floor h).toNat + 1) (s.length - 1) = (Int.ceil h).toNat := by
      rw [hceil]
      have h1 : (Int.floor h + 1).toNat = (Int.floor h).toNat + 1 := by omega
      rw [h1]
      apply min_eq_left
      omega
    rw [interpolate, toNat_floor_cast h0, hmin]

/-- The spec-side percentile (interpolation between closest ranks over the
sorted non-missing values) equals the implementation's quantile for every
probability in `[0, 1]`. -/
lemma specPercentile_eq_quantile (xs : List ℚ) {p : ℚ} (hp0 : 0 ≤ p) (hp1 : p ≤ 1) :
    specPercentile xs p = quantile xs p := by
  by_cases hE : xs.isEmpty = true
  · rw [specPercentile, quantile, if_pos hE, if_pos hE]
  · have hne : xs ≠ [] := by
      cases xs with
      | nil => simp at hE
      | cons x xs => simp
    have hlen : 1 ≤ xs.length := List.length_pos.mpr hne
    have hL0 : (0:ℚ) ≤ (xs.length : ℚ) - 1 := by
      have : (1:ℚ) ≤ (xs.length : ℚ) := by exact_mod_cast hlen
      linarith
    have hslen : (xs.insertionSort (· ≤ ·)).length = xs.length :=
      List.length_insertionSort (· ≤ ·) xs
    have h0 : 0 ≤ p * ((xs.length : ℚ) - 1) := mul_nonneg hp0 hL0
    have hN : p * ((xs.length : ℚ) - 1) ≤ ((xs.insertionSort (· ≤ ·)).length : ℚ) - 1 := by
      rw [hslen]
      nlinarith
    rw [specPercentile, quantile, if_neg hE, if_neg hE]
    exact congrArg some (interp_closest_ranks (xs.insertionSort (· ≤ ·)) h0 hN)

/-- The implementation's outlier count coincides with the spec-side count:
quantiles agree, and counting over all cells with missing values rejected
equals counting over the non-missing values. -/
lemma outlierCount_eq_spec (vals : List Cell) (m : ℚ) :
    outlierCount vals m = spec_outlier_count vals m := by
  rw [outlierCount, spec_outlier_count,
      specPercentile_eq_quantile _ (by norm_num) (by norm_num),
      specPercentile_eq_quantile _ (by norm_num) (by norm_num)]
  cases h1 : quantile (numericVals vals) (1/4) with
  | none => rfl
  | some q1 =>
      cases h3 : quantile (numericVals vals) (3/4) with
      | none => rfl
      | some q3 =>
          show vals.countP _ = (numericVals vals).countP _
          rw [countP_numericVals]
          apply List.countP_congr
          intro c _
          cases c with
          | num q => rfl
          | str s => rfl
          | null => rfl

/-- The outlier report is a permutation of the per-numeric-column counts. -/
lemma outlier_pairs_perm (t : Table) (m : ℚ) :
    (outlier_pairs t m).Perm
      ((t.cols.filter fun c => c.dtype == Dtype.numeric).map
        fun c => (c.name, outlierCount c.vals m)) :=
  List.perm_insertionSort cdRel _

/-- The outlier report is sorted by count descending. -/
lemma outlier_pairs_sorted (t : Table) (m : ℚ) : (outlier_pairs t m).Sorted cdRel :=
  List.sorted_insertionSort cdRel _

/-- First quartile of the spec's example column. -/
lemma quantile_exNum_q1 : quantile (numericVals exNumCol.vals) (1/4) = some 2 := by
  have hnv : numericVals exNumCol.vals = [1,2,3,4,100] := rfl
  have hs : ([1,2,3,4,100] : List ℚ).insertionSort (· ≤ ·) = [1,2,3,4,100] := by decide
  rw [hnv, quantile, if_neg (by decide), hs]
  norm_num [interpolate]

/-- Third quartile of the spec's example column. -/
lemma quantile_exNum_q3 : quantile (numericVals exNumCol.vals) (3/4) = some 4 := by
  have hnv : numericVals exNumCol.vals = [1,2,3,4,100] := rfl
  have hs : ([1,2,3,4,100] : List ℚ).insertionSort (· ≤ ·) = [1,2,3,4,100] := by decide
  rw [hnv, quantile, if_neg (by decide), hs]
  norm_num [interpolate, show Int.toNat 3 = 3 from rfl]

/-- Outlier count of the example column at the default multiplier. -/
lemma outlierCount_exNum : outlierCount exNumCol.vals (3/2) = 1 := by
  rw [outlierCount, quantile_exNum_q1, quantile_exNum_q3]
  show exNumCol.vals.countP (isOutlierCell (2 - 3/2 * (4 - 2)) (4 + 3/2 * (4 - 2))) = 1
  have hb : (2:ℚ) - 3/2 * (4 - 2) = -1 := by norm_num
  have hu : (4:ℚ) + 3/2 * (4 - 2) = 7 := by norm_num
  rw [hb, hu]
  decide

/-- Claim C1: for every table and multiplier, `outlier_summary` reports, for
each numeric column independently over its non-missing values, the count of
values strictly outside the IQR fences built from Q1 and Q3 (linear
interpolation between closest ranks), with the report ordered by outlier
count descending; and on the example column `x = [1,2,3,4,100]` with
multiplier `1.5` the quartiles are `2` and `4`, the fences are `[-1, 7]`,
and the outlier count is exactly `1`. -/
theorem C1_outlier_summary_iqr :
    (∀ (t : Table) (m : ℚ),
        (outlier_pairs t m).Perm
          ((t.cols.filter fun c => c.dtype == Dtype.numeric).map
            fun c => (c.name, spec_outlier_count c.vals m))
        ∧ (outlier_pairs t m).Sorted cdRel)
    ∧ quantile (numericVals exNumCol.vals) (1/4) = some 2
    ∧ quantile (numericVals exNumCol.vals) (3/4) = some 4
    ∧ (2:ℚ) - (3/2) * (4 - 2) = -1 ∧ (4:ℚ) + (3/2) * (4 - 2) = 7
    ∧ exNumCol.vals.countP (isOutlierCell (-1) 7) = 1
    ∧ outlier_summary (.df exNumT) (3/2) = .ok [(("x"), 1)] := by
  refine ⟨fun t m => ⟨?_, outlier_pairs_sorted t m⟩, quantile_exNum_q1, quantile_exNum_q3,
    by norm_num, by norm_num, by decide, ?_⟩
  · have hmap : ((t.cols.filter fun c => c.dtype == Dtype.numeric).map
        fun c => (c.name, outlierCount c.vals m))
        = ((t.cols.filter fun c => c.dtype == Dtype.numeric).map
          fun c => (c.name, spec_outlier_count c.vals m)) :=
      List.map_congr_left fun c _ => by rw [outlierCount_eq_spec]
    exact hmap ▸ outlier_pairs_perm t m
  · rw [outlier_summary]
    have hpairs : outlier_pairs exNumT (3/2) = [(("x"), 1)] := by
      rw [outlier_pairs]
      have hfil : exNumT.cols.filter (fun c => c.dtype == Dtype.numeric) = [exNumCol] := rfl
      rw [hfil]
      simp [outlierCount_exNum, show exNumCol.name = ("x") from rfl]
    rw [hpairs]

/-- Claim C4: the per-column outlier count reported by `outlier_summary` is
monotonically non-increasing in the multiplier: for `m1 ≤ m2` each column's
count at `m2` is at most its count at `m1` (and the report consists exactly
of the per-numeric-column counts). -/
theorem C4_outlier_count_antitone :
    (∀ (vals : List Cell) (m1 m2 : ℚ), m1 ≤ m2 →
        outlierCount vals m2 ≤ outlierCount vals m1)
    ∧ ∀ (t : Table) (m : ℚ),
        (outlier_pairs t m).Perm
          ((t.cols.filter fun c => c.dtype == Dtype.numeric).map
            fun c => (c.name, outlierCount c.vals m)) :=
  ⟨fun vals _ _ h => outlierCount_anti vals h, fun t m => outlier_pairs_perm t m⟩

/-- Witness for C4: at the example column, with multipliers `1 ≤ 2`. -/
theorem C4_outlier_count_antitone_witness :
    (1:ℚ) ≤ 2 ∧ outlierCount exNumCol.vals 2 ≤ outlierCount exNumCol.vals 1 :=
  ⟨by decide, C4_outlier_count_antitone.1 exNumCol.vals 1 2 (by decide)⟩

/-- Counting elements equal to an earlier (or already seen) element counts
everything except the first occurrence of each value not yet seen. -/
lemma dupCountFrom_eq {α : Type} [DecidableEq α] (l : List α) : ∀ seen : List α,
    dupCountFrom seen l = l.length - (l.toFinset \ seen.toFinset).card := by
  induction l with
  | nil => intro seen; simp [dupCountFrom]
  | cons x xs ih =>
      intro seen
      have hcard : (xs.toFinset \ seen.toFinset).card ≤ xs.length :=
        le_trans (Finset.card_le_card Finset.sdiff_subset) (List.toFinset_card_le xs)
      by_cases hx : x ∈ seen
      · have h1 : (x :: xs).toFinset \ seen.toFinset = xs.toFinset \ seen.toFinset := by
          rw [List.toFinset_cons]
          exact Finset.insert_sdiff_of_mem _ (List.mem_toFinset.mpr hx)
        have h2 : xs.toFinset \ (x :: seen).toFinset = xs.toFinset \ seen.toFinset := by
          rw [List.toFinset_cons, Finset.insert_eq_self.mpr (List.mem_toFinset.mpr hx)]
        rw [dupCountFrom, if_pos hx, ih (x :: seen), h1, h2, List.length_cons]
        omega
      · have hxs : x ∉ seen.toFinset := fun hc => hx (List.mem_toFinset.mp hc)
        have h1 : (x :: xs).toFinset \ seen.toFinset
            = insert x (xs.toFinset \ seen.toFinset) := by
          rw [List.toFinset_cons]
          exact Finset.insert_sdiff_of_not_mem _ hxs
        have h2 : xs.toFinset \ (x :: seen).toFinset
            = (xs.toFinset \ seen.toFinset).erase x := by
          rw [List.toFinset_cons, Finset.sdiff_insert]
        have hcardins : (insert x (xs.toFinset \ seen.toFinset)).card
            = ((xs.toFinset \ seen.toFinset).erase x).card + 1 := by
          by_cases hxB : x ∈ xs.toFinset \ seen.toFinset
          · rw [Finset.insert_eq_self.mpr hxB, Finset.card_erase_of_mem hxB]
            have hpos : 1 ≤ (xs.toFinset \ seen.toFinset).card :=
              Finset.card_pos.mpr ⟨x, hxB⟩
            omega
          · rw [Finset.card_insert_of_not_mem hxB, Finset.erase_eq_of_not_mem hxB]
        have hcard2 : ((xs.toFinset \ seen.toFinset).erase x).card ≤ xs.length :=
          le_trans (Finset.card_le_card (Finset.erase_subset _ _)) hcard
        rw [dupCountFrom, if_neg hx, ih (x :: seen), h1, h2, List.length_cons, hcardins]
        omega

/-- With nothing seen yet, the duplicate count is the list length minus the
number of distinct elements. -/
lemma dupCountFrom_nil_eq {α : Type} [DecidableEq α] (l : List α) :
    dupCountFrom [] l = l.length - l.dedup.length := by
  rw [dupCountFrom_eq l []]
  simp [List.card_toFinset]

/-- The row list has one entry per row. -/
lemma length_rowList (t : Table) : (rowList t).length = t.nrows := by
  simp [rowList]

/-- Claim C8: `duplicate_count` equals the row count minus the number of
distinct rows (a row counting as duplicate when it equals an earlier row in
all columns); in particular it is `0` when all rows are pairwise
distinct. -/
theorem C8_duplicate_count :
    ∀ t : Table,
      duplicate_summary (.df t) = .ok (t.nrows - distinct_row_count t)
      ∧ ((rowList t).Nodup → duplicate_summary (.df t) = .ok 0) := by
  intro t
  have hds : duplicate_summary (.df t) = .ok (dupCountFrom [] (rowList t)) := rfl
  constructor
  · rw [hds, dupCountFrom_nil_eq, length_rowList, distinct_row_count]
  · intro hnd
    rw [hds, dupCountFrom_nil_eq, List.dedup_eq_self.mpr hnd]
    simp

/-- Witness for C8: the example table has pairwise-distinct rows and
duplicate count `0`. -/
theorem C8_duplicate_count_witness :
    (rowList exNumT).Nodup ∧ duplicate_summary (.df exNumT) = .ok 0 :=
  ⟨by decide, (C8_duplicate_count exNumT).2 (by decide)⟩

/-- On a DataFrame with `n ≤ 0`, the operations guarded by
`validate_positive_integer` fail with `ValueError`. -/
lemma head_df_nonpos (t : Table) {n : ℤ} (hn : n ≤ 0) :
    head (.df t) n = .error .valueError
    ∧ tail (.df t) n = .error .valueError
    ∧ head_info (.df t) n = .error .valueError := by
  refine ⟨?_, ?_, ?_⟩ <;>
    simp [head, tail, head_info, validate_dataframe_or_series, validate_positive_integer,
      hn, Bind.bind, Except.bind]

/-- On a DataFrame with `1 ≤ n`, the row previews succeed. -/
lemma head_df_pos (t : Table) {n : ℤ} (hn : 1 ≤ n) :
    head (.df t) n = .ok (.df (takeTable t n.toNat))
    ∧ tail (.df t) n = .ok (.df (tailTable t n.toNat))
    ∧ dfInspector_head_info (.df t) n = .ok (.df (takeTable t n.toNat)) := by
  have hn' : ¬ (n ≤ 0) := by omega
  have hn'' : ¬ (n < 0) := by omega
  refine ⟨?_, ?_, ?_⟩ <;>
    simp [head, tail, dfInspector_head_info, validate_dataframe_or_series,
      validate_positive_integer, hn', hn'', Bind.bind, Except.bind, tailTable,
      Pure.pure, Except.pure]

/-- Claim C2 counterexample: on a table whose first column has zero missing
values, `missing_summary` still returns a row for it (missing count `0`),
and the rows are ordered `[0%, 50%]` — not by missing percentage
descending. -/
theorem C2_missing_summary_cex :
    missing_summary (.df exMT) = .ok (missing_rows exMT)
    ∧ ((missing_rows exMT).map fun r => r.missingCount) = [0, 1]
    ∧ ((missing_rows exMT).map fun r => r.missingRatio.getD 0) = [0, 50]
    ∧ ¬ ((50:ℚ) ≤ 0) := by
  refine ⟨rfl, by decide, ?_, by norm_num⟩
  have hrfl : ((missing_rows exMT).map fun r => r.missingRatio.getD 0)
      = [((0:ℕ):ℚ)/((2:ℕ):ℚ)*100, ((1:ℕ):ℚ)/((2:ℕ):ℚ)*100] := rfl
  rw [hrfl]
  norm_num

/-- Claim C2 amended: `missing_summary` returns one row per column — columns
with zero missing values included — in the table's original column order,
each with its missing count, missing percentage
`missing_count / row_count * 100`, and dtype; no filtering or sorting is
applied. -/
theorem C2_missing_summary_amended :
    ∀ t : Table, t.WF → 0 < t.nrows →
      missing_summary (.df t) = .ok (t.cols.map fun c =>
        { colName := c.name
          missingCount := countNull c.vals
          missingRatio := some ((countNull c.vals : ℚ) / (t.nrows : ℚ) * 100)
          dtype := c.dtype })
      ∧ (missing_rows t).length = t.cols.length := by
  intro t hwf hpos
  constructor
  · show Except.ok (missing_rows t) = _
    rw [missing_rows]
    congr 1
    apply List.map_congr_left
    intro c hc
    have hlen : c.vals.length = t.nrows := hwf c hc
    have hne : ¬ (c.vals.length = 0) := by omega
    rw [if_neg hne, hlen]
  · simp [missing_rows]

/-- Witness for the amended C2 at the two-column example table. -/
theorem C2_missing_summary_amended_witness :
    exMT.WF ∧ 0 < exMT.nrows
    ∧ missing_summary (.df exMT) = .ok (exMT.cols.map fun c =>
        { colName := c.name
          missingCount := countNull c.vals
          missingRatio := some ((countNull c.vals : ℚ) / (exMT.nrows : ℚ) * 100)
          dtype := c.dtype }) :=
  ⟨by decide, by decide, (C2_missing_summary_amended exMT (by decide) (by decide)).1⟩

/-- Claim C3 counterexample: `shape_summary` applied to a non-table object
does not raise the typed input error: it fails with an attribute error. -/
theorem C3_validation_cex :
    shape_summary (.intObj 0) = .error .attributeError
    ∧ PyErr.attributeError ≠ PyErr.typeError :=
  ⟨rfl, by decide⟩

/-- Claim C3 amended: the operations that call a validator (`head`, `tail`,
`head_info`, both `head_info` variants, `info`, `sample_rows`, `describe`,
`columns_overview`, `top_values_summary`, `duplicate_summary`) reject a
non-table argument with the typed `TypeError` before any computation,
whereas `shape_summary`, `missing_summary`, `outlier_summary` and
`full_summary` perform no input validation and fail with an untyped
`AttributeError` instead. -/
theorem C3_validation_amended :
    ∀ (k n : ℤ) (m : ℚ) (mode : String),
      head (.intObj k) n = .error .typeError
      ∧ tail (.intObj k) n = .error .typeError
      ∧ head_info (.intObj k) n = .error .typeError
      ∧ dfInspector_head_info (.intObj k) n = .error .typeError
      ∧ info (.intObj k) = .error .typeError
      ∧ sample_rows (.intObj k) n = .error .typeError
      ∧ describe (.intObj k) mode = .error .typeError
      ∧ columns_overview (.intObj k) = .error .typeError
      ∧ top_values_summary (.intObj k) n = .error .typeError
      ∧ duplicate_summary (.intObj k) = .error .typeError
      ∧ shape_summary (.intObj k) = .error .attributeError
      ∧ missing_summary (.intObj k) = .error .attributeError
      ∧ outlier_summary (.intObj k) m = .error .attributeError
      ∧ full_summary (.intObj k) mode = .error .attributeError :=
  fun _ _ _ _ => ⟨rfl, rfl, rfl, rfl, rfl, rfl, rfl, rfl, rfl, rfl, rfl, rfl, rfl, rfl⟩

/-- Claim C7 counterexample: the `dfInspector` variant of the row preview
accepts `n = 0` on a well-typed table instead of failing with the invalid
argument error. -/
theorem C7_row_preview_cex :
    dfInspector_head_info (.df exNumT) 0 = .ok (.df (takeTable exNumT 0)) := rfl

/-- Claim C7 amended: `summary.head`, `summary.tail` and `summary.head_info`
reject every `n ≤ 0` (in particular `0` and `-1`) with `ValueError` before
returning rows, and succeed on every table for `n ≥ 1`; but the
`dfInspector.head_info` variant rejects only `n < 0` and accepts `n = 0`. -/
theorem C7_row_preview_amended :
    ∀ (t : Table) (n : ℤ),
      (n ≤ 0 → head (.df t) n = .error .valueError
        ∧ tail (.df t) n = .error .valueError
        ∧ head_info (.df t) n = .error .valueError)
      ∧ (1 ≤ n → head (.df t) n = .ok (.df (takeTable t n.toNat))
        ∧ tail (.df t) n = .ok (.df (tailTable t n.toNat))
        ∧ dfInspector_head_info (.df t) n = .ok (.df (takeTable t n.toNat)))
      ∧ dfInspector_head_info (.df t) 0 = .ok (.df (takeTable t 0)) :=
  fun t n => ⟨fun hn => head_df_nonpos t hn, fun hn => head_df_pos t hn, rfl⟩

/-- Witness for the amended C7 at the example table with `n = -1` and
`n = 1`. -/
theorem C7_row_preview_amended_witness :
    ((-1 : ℤ) ≤ 0 ∧ head (.df exNumT) (-1) = .error .valueError)
    ∧ ((1:ℤ) ≤ 1 ∧ head (.df exNumT) 1 = .ok (.df (takeTable exNumT 1))) :=
  ⟨⟨by decide, ((C7_row_preview_amended exNumT (-1)).1 (by decide)).1⟩,
    ⟨by decide, ((C7_row_preview_amended exNumT 1).2.1 (by decide)).1⟩⟩

/-- Claim C9: no operation mutates its input table: each state-threading
translation returns the source table unchanged, and the summaries are pure
functions of the table value. -/
theorem C9_no_mutation :
    ∀ (t : Table) (m : ℚ) (k : ℕ),
      (missing_summary_run t).2 = t ∧ (missing_summary_run t).1 = missing_rows t
      ∧ (outlier_summary_run t m).2 = t ∧ (outlier_summary_run t m).1 = outlier_pairs t m
      ∧ (top_values_summary_run t k).2 = t
      ∧ (duplicate_summary_run t).2 = t
      ∧ (shape_summary_run t).2 = t
      ∧ (columns_overview_run t).2 = t :=
  fun _ _ _ => ⟨rfl, rfl, rfl, rfl, rfl, rfl, rfl, rfl⟩

/-- Membership in `firstOccsFrom`: the elements of the list not yet seen. -/
lemma mem_firstOccsFrom : ∀ (l seen : List String) (v : String),
    v ∈ firstOccsFrom seen l ↔ (v ∈ l ∧ v ∉ seen) := by
  intro l
  induction l with
  | nil => intro seen v; simp [firstOccsFrom]
  | cons x xs ih =>
      intro seen v
      rw [firstOccsFrom]
      by_cases hx : x ∈ seen
      · rw [if_pos hx, ih]
        constructor
        · rintro ⟨hv, hns⟩
          exact ⟨List.mem_cons_of_mem _ hv, hns⟩
        · rintro ⟨hv, hns⟩
          rcases List.mem_cons.mp hv with rfl | hv
          · exact absurd hx hns
          · exact ⟨hv, hns⟩
      · rw [if_neg hx]
        constructor
        · intro hv
          rcases List.mem_cons.mp hv with rfl | hv
          · exact ⟨List.mem_cons_self _ _, hx⟩
          · obtain ⟨h1, h2⟩ := (ih (x :: seen) v).mp hv
            exact ⟨List.mem_cons_of_mem _ h1, fun hc => h2 (List.mem_cons_of_mem _ hc)⟩
        · rintro ⟨hv, hns⟩
          rcases List.mem_cons.mp hv with rfl | hv
          · exact List.mem_cons_self _ _
          · by_cases hvx : v = x
            · subst hvx
              exact List.mem_cons_self _ _
            · exact List.mem_cons_of_mem _ ((ih (x :: seen) v).mpr
                ⟨hv, fun hc => (List.mem_cons.mp hc).elim hvx hns⟩)

/-- `firstOccsFrom` never repeats an element. -/
lemma nodup_firstOccsFrom : ∀ (l seen : List String), (firstOccsFrom seen l).Nodup := by
  intro l
  induction l with
  | nil => intro seen; simp [firstOccsFrom]
  | cons x xs ih =>
      intro seen
      rw [firstOccsFrom]
      by_cases hx : x ∈ seen
      · rw [if_pos hx]
        exact ih seen
      · rw [if_neg hx]
        refine List.nodup_cons.mpr ⟨fun hc => ?_, ih (x :: seen)⟩
        exact ((mem_firstOccsFrom xs (x :: seen) x).mp hc).2 (List.mem_cons_self _ _)

/-- The first-appearance distinct list is a permutation of `dedup`. -/
lemma firstOccs_perm_dedup (l : List String) : (firstOccs l).Perm l.dedup := by
  apply List.perm_of_nodup_nodup_toFinset_eq (nodup_firstOccsFrom l []) (List.nodup_dedup l)
  ext v
  simp [List.mem_toFinset, List.mem_dedup, firstOccs, mem_firstOccsFrom]

/-- The counts of the distinct values sum to the number of counted
elements. -/
lemma sum_strCounts (vals : List Cell) :
    ((strCounts vals).map fun p => p.2).sum = (strVals vals).length := by
  rw [strCounts, List.map_map]
  have hcomp : ((fun p : String × ℕ => p.2) ∘ fun v => (v, (strVals vals).count v))
      = fun v => (strVals vals).count v := rfl
  rw [hcomp, ((firstOccs_perm_dedup (strVals vals)).map _).sum_eq]
  exact List.sum_map_count_dedup_eq_length _

/-- `value_counts` is a permutation of the first-appearance counts. -/
lemma value_counts_perm (vals : List Cell) :
    (value_counts vals).Perm (strCounts vals) :=
  List.perm_insertionSort cdRel _

/-- `value_counts` is sorted by count descending. -/
lemma value_counts_sorted (vals : List Cell) : (value_counts vals).Sorted cdRel :=
  List.sorted_insertionSort cdRel _

/-- Stability of `value_counts`: a pair of distinct values with
non-increasing counts that appears in first-appearance order stays in that
order after sorting. -/
lemma value_counts_stable (vals : List Cell) {a b : String × ℕ}
    (hsub : [a, b].Sublist (strCounts vals)) (hc : b.2 ≤ a.2) :
    [a, b].Sublist (value_counts vals) :=
  List.pair_sublist_insertionSort hc hsub

/-- Factoring a constant out of a sum of scaled counts. -/
lemma sum_map_cast_mul (l : List (String × ℕ)) (K : ℚ) :
    (l.map fun p => (p.2 : ℚ) * K).sum = (((l.map fun p => p.2).sum : ℕ) : ℚ) * K := by
  induction l with
  | nil => simp
  | cons x xs ih =>
      simp only [List.map_cons, List.sum_cons, ih]
      rw [Nat.cast_add]
      ring

/-- The counts among the first `k` reported values sum to at most the
number of counted elements. -/
lemma sum_counts_take_le (vals : List Cell) (k : ℕ) :
    (((value_counts vals).take k).map fun p => p.2).sum ≤ (strVals vals).length := by
  have hsum : ((value_counts vals).map fun p => p.2).sum = (strVals vals).length := by
    rw [((value_counts_perm vals).map _).sum_eq, sum_strCounts]
  calc (((value_counts vals).take k).map fun p => p.2).sum
      = (((value_counts vals).map fun p => p.2).take k).sum := by rw [List.map_take]
    _ ≤ ((value_counts vals).map fun p => p.2).sum := by
        conv_rhs => rw [← List.take_append_drop k ((value_counts vals).map fun p => p.2)]
        rw [List.sum_append]
        exact Nat.le_add_right _ _
    _ = _ := hsum

/-- Every count in the frequency table is bounded by the number of counted
elements. -/
lemma snd_le_of_mem_strCounts {vals : List Cell} {p : String × ℕ}
    (hp : p ∈ strCounts vals) : p.2 ≤ (strVals vals).length := by
  obtain ⟨v, _, rfl⟩ := List.mem_map.mp hp
  exact List.count_le_length v _

/-- Claim C5: for every table, the per-column entries of
`top_values_summary` are the most frequent distinct values — `value_counts`
is a permutation of the first-appearance frequency table, sorted by count
descending, and stable: among equal counts the first-encountered value
stays first.  On the example column `cat = ["a","a","b","c"]` with
`top_n = 2` the result is `"a"` (count 2, 50%) then `"b"` (count 1, 25%),
`"b"` winning the tie against `"c"`. -/
theorem C5_top_values_tiebreak :
    (∀ vals : List Cell,
        (value_counts vals).Perm (strCounts vals)
        ∧ (value_counts vals).Sorted cdRel
        ∧ ∀ a b : String × ℕ, [a, b].Sublist (strCounts vals) → b.2 ≤ a.2 →
            [a, b].Sublist (value_counts vals))
    ∧ top_values_summary (.df exCatT) 2
        = .ok [⟨("cat"), ("a"), 2, 50⟩, ⟨("cat"), ("b"), 1, 25⟩] := by
  refine ⟨fun vals => ⟨value_counts_perm vals, value_counts_sorted vals,
    fun a b hsub hc => value_counts_stable vals hsub hc⟩, ?_⟩
  have hts : top_entries exCatT 2
      = [⟨("cat"), ("a"), 2, round2 (((2:ℕ):ℚ) / ((4:ℕ):ℚ) * 100)⟩,
         ⟨("cat"), ("b"), 1, round2 (((1:ℕ):ℚ) / ((4:ℕ):ℚ) * 100)⟩] := rfl
  have hr1 : round2 (((2:ℕ):ℚ) / ((4:ℕ):ℚ) * 100) = 50 := by
    norm_num [round2, roundHalfEven]
  have hr2 : round2 (((1:ℕ):ℚ) / ((4:ℕ):ℚ) * 100) = 25 := by
    norm_num [round2, roundHalfEven]
  have hrun : top_values_summary (.df exCatT) 2
      = .ok (List.insertionSort topRel (top_entries exCatT 2)) := rfl
  rw [hrun, hts, hr1, hr2]
  have hsorted : List.Sorted topRel
      [⟨("cat"), ("a"), 2, 50⟩, ⟨("cat"), ("b"), 1, 25⟩] :=
    List.pairwise_pair.mpr (Or.inr ⟨rfl, by norm_num⟩)
  rw [List.Sorted.insertionSort_eq hsorted]

/-- Witness for C5: the tied pair `("b", 1)`, `("c", 1)` of the example
column keeps its first-appearance order in `value_counts`. -/
theorem C5_top_values_tiebreak_witness :
    [(("b"), 1), (("c"), 1)].Sublist (strCounts exCatCol.vals)
    ∧ (1:ℕ) ≤ 1
    ∧ [(("b"), 1), (("c"), 1)].Sublist (value_counts exCatCol.vals) :=
  ⟨by decide, le_refl 1,
    (C5_top_values_tiebreak.1 exCatCol.vals).2.2 (("b"), 1) (("c"), 1) (by decide) (le_refl 1)⟩

/-- Claim C6 amended: `top_values_summary` returns at most `top_n` entries
per categorical column and every reported count is at most the row count;
the sum of the EXACT ratios `count / row_count * 100` underlying a column's
entries is at most `100` — but the reported percentages are rounded to two
decimals, and their sum can exceed `100` (see the counterexample).  When at
least one entry was built the operation returns the sorted entries; when no
entry was built it raises `KeyError` from the final `sort_values`. -/
theorem C6_top_values_bounds :
    (∀ t : Table, t.WF → ∀ (k : ℕ), ∀ c ∈ t.cols,
        (colEntries t c k).length ≤ k
        ∧ (∀ e ∈ colEntries t c k, e.count ≤ t.nrows)
        ∧ ((colEntries t c k).map fun e => (e.count : ℚ) / (t.nrows : ℚ) * 100).sum ≤ 100)
    ∧ ∀ (t : Table) (n : ℤ), 1 ≤ n →
        (top_entries t n.toNat ≠ [] →
          top_values_summary (.df t) n
            = .ok (List.insertionSort topRel (top_entries t n.toNat)))
        ∧ (top_entries t n.toNat = [] →
          top_values_summary (.df t) n = .error .keyError) := by
  constructor
  · intro t hwf k c hc
    have hlenc : c.vals.length = t.nrows := hwf c hc
    have hstr : (strVals c.vals).length ≤ t.nrows := by
      rw [← hlenc]
      exact List.length_filterMap_le _ _
    refine ⟨?_, ?_, ?_⟩
    · rw [colEntries, List.length_map, List.length_take]
      exact min_le_left _ _
    · intro e he
      obtain ⟨p, hp, rfl⟩ := List.mem_map.mp he
      have hp' : p ∈ value_counts c.vals := List.mem_of_mem_take hp
      have hp'' : p ∈ strCounts c.vals := (value_counts_perm c.vals).mem_iff.mp hp'
      exact le_trans (snd_le_of_mem_strCounts hp'') hstr
    · have hmap : ((colEntries t c k).map fun e => (e.count : ℚ) / (t.nrows : ℚ) * 100)
          = ((value_counts c.vals).take k).map fun p => (p.2 : ℚ) * (100 / (t.nrows : ℚ)) := by
        rw [colEntries, List.map_map]
        apply List.map_congr_left
        intro p _
        show (p.2 : ℚ) / (t.nrows : ℚ) * 100 = (p.2 : ℚ) * (100 / (t.nrows : ℚ))
        ring
      rw [hmap, sum_map_cast_mul]
      have hcount : (((value_counts c.vals).take k).map fun p => p.2).sum ≤ t.nrows :=
        le_trans (sum_counts_take_le c.vals k) hstr
      by_cases hz : t.nrows = 0
      · rw [hz]
        norm_num
      · have hnrpos : 0 < t.nrows := Nat.pos_of_ne_zero hz
        have hnr : (0:ℚ) < (t.nrows : ℚ) := by exact_mod_cast hnrpos
        have hcast : ((((((value_counts c.vals).take k).map fun p => p.2).sum : ℕ)) : ℚ)
            ≤ (t.nrows : ℚ) := by exact_mod_cast hcount
        have h100 : (t.nrows : ℚ) * (100 / (t.nrows : ℚ)) = 100 := by
          field_simp
        calc ((((((value_counts c.vals).take k).map fun p => p.2).sum : ℕ)) : ℚ)
              * (100 / (t.nrows : ℚ))
            ≤ (t.nrows : ℚ) * (100 / (t.nrows : ℚ)) := by
              apply mul_le_mul_of_nonneg_right hcast
              positivity
          _ = 100 := h100
  · intro t n hn
    have hn' : ¬ (n ≤ 0) := by omega
    constructor
    · intro hne
      have hE : (top_entries t n.toNat).isEmpty = false := by
        cases htop : top_entries t n.toNat with
        | nil => exact absurd htop hne
        | cons e es => simp
      simp [top_values_summary, validate_dataframe, validate_positive_integer, hn',
        Bind.bind, Except.bind, sort_summary_frame, hE]
    · intro hemp
      simp [top_values_summary, validate_dataframe, validate_positive_integer, hn',
        Bind.bind, Except.bind, sort_summary_frame, hemp]

/-- Witness for the amended C6 at the seven-value example table. -/
theorem C6_top_values_bounds_witness :
    ex7T.WF ∧ ex7Col ∈ ex7T.cols ∧ (1:ℤ) ≤ 7
    ∧ top_entries ex7T (7:ℤ).toNat ≠ []
    ∧ (colEntries ex7T ex7Col 7).length ≤ 7
    ∧ ((colEntries ex7T ex7Col 7).map fun e => (e.count : ℚ) / (ex7T.nrows : ℚ) * 100).sum ≤ 100
    ∧ top_values_summary (.df ex7T) 7
        = .ok (List.insertionSort topRel (top_entries ex7T (7:ℤ).toNat)) :=
  ⟨by decide, by decide, by decide, by decide,
    (C6_top_values_bounds.1 ex7T (by decide) 7 ex7Col (by decide)).1,
    (C6_top_values_bounds.1 ex7T (by decide) 7 ex7Col (by decide)).2.2,
    (C6_top_values_bounds.2 ex7T 7 (by decide)).1 (by decide)⟩

/-- Claim C6 counterexample: on a table with seven rows holding seven
distinct values and `top_n = 7`, the reported (rounded) percentages are
seven copies of `14.29`, summing to `100.03 > 100`. -/
theorem C6_top_values_percent_cex :
    top_values_summary (.df ex7T) 7 = .ok ex7Entries
    ∧ (ex7Entries.map fun e => e.percentage).sum = 10003/100
    ∧ ¬ ((ex7Entries.map fun e => e.percentage).sum ≤ 100) := by
  have hts : top_entries ex7T 7
      = [⟨("c"), ("a"), 1, round2 (((1:ℕ):ℚ) / ((7:ℕ):ℚ) * 100)⟩,
         ⟨("c"), ("b"), 1, round2 (((1:ℕ):ℚ) / ((7:ℕ):ℚ) * 100)⟩,
         ⟨("c"), ("d"), 1, round2 (((1:ℕ):ℚ) / ((7:ℕ):ℚ) * 100)⟩,
         ⟨("c"), ("e"), 1, round2 (((1:ℕ):ℚ) / ((7:ℕ):ℚ) * 100)⟩,
         ⟨("c"), ("f"), 1, round2 (((1:ℕ):ℚ) / ((7:ℕ):ℚ) * 100)⟩,
         ⟨("c"), ("g"), 1, round2 (((1:ℕ):ℚ) / ((7:ℕ):ℚ) * 100)⟩,
         ⟨("c"), ("h"), 1, round2 (((1:ℕ):ℚ) / ((7:ℕ):ℚ) * 100)⟩] := rfl
  have hr : round2 (((1:ℕ):ℚ) / ((7:ℕ):ℚ) * 100) = 1429/100 := by
    norm_num [round2, roundHalfEven]
  have hrun : top_values_summary (.df ex7T) 7
      = .ok (List.insertionSort topRel (top_entries ex7T 7)) := rfl
  have hsorted : List.Sorted topRel ex7Entries := by
    simp [ex7Entries, List.pairwise_cons, topRel]
  refine ⟨?_, ?_, ?_⟩
  · rw [hrun, hts, hr]
    show Except.ok (List.insertionSort topRel ex7Entries) = _
    rw [List.Sorted.insertionSort_eq hsorted]
  · norm_num [ex7Entries]
  · norm_num [ex7Entries]

/-- Claim C10: the percentage field of every entry of `top_values_summary`
is the exact ratio `count / row_count * 100` rounded to two decimal places,
not the exact ratio itself: on the seven-value example every reported
percentage differs from the exact ratio and the reported per-column sum
differs from the exact sum. -/
theorem C10_percentage_rounding :
    (∀ (t : Table) (k : ℕ),
        ((top_entries t k).map fun e => e.percentage)
          = (top_entries t k).map fun e => round2 ((e.count : ℚ) / (t.nrows : ℚ) * 100))
    ∧ (∃ e ∈ top_entries ex7T 7,
        e.percentage ≠ (e.count : ℚ) / (ex7T.nrows : ℚ) * 100)
    ∧ ((top_entries ex7T 7).map fun e => e.percentage).sum
        ≠ ((top_entries ex7T 7).map fun e => (e.count : ℚ) / (ex7T.nrows : ℚ) * 100).sum := by
  have hts : top_entries ex7T 7
      = [⟨("c"), ("a"), 1, round2 (((1:ℕ):ℚ) / ((7:ℕ):ℚ) * 100)⟩,
         ⟨("c"), ("b"), 1, round2 (((1:ℕ):ℚ) / ((7:ℕ):ℚ) * 100)⟩,
         ⟨("c"), ("d"), 1, round2 (((1:ℕ):ℚ) / ((7:ℕ):ℚ) * 100)⟩,
         ⟨("c"), ("e"), 1, round2 (((1:ℕ):ℚ) / ((7:ℕ):ℚ) * 100)⟩,
         ⟨("c"), ("f"), 1, round2 (((1:ℕ):ℚ) / ((7:ℕ):ℚ) * 100)⟩,
         ⟨("c"), ("g"), 1, round2 (((1:ℕ):ℚ) / ((7:ℕ):ℚ) * 100)⟩,
         ⟨("c"), ("h"), 1, round2 (((1:ℕ):ℚ) / ((7:ℕ):ℚ) * 100)⟩] := rfl
  have hr : round2 (((1:ℕ):ℚ) / ((7:ℕ):ℚ) * 100) = 1429/100 := by
    norm_num [round2, roundHalfEven]
  have hnr7 : ex7T.nrows = 7 := rfl
  refine ⟨?_, ?_, ?_⟩
  · intro t k
    apply List.map_congr_left
    intro e he
    rw [top_entries] at he
    obtain ⟨c, hc, he⟩ := List.mem_flatMap.mp he
    obtain ⟨p, hp, rfl⟩ := List.mem_map.mp he
    rfl
  · refine ⟨⟨("c"), ("a"), 1, 1429/100⟩, ?_, ?_⟩
    · rw [hts, hr]
      exact List.mem_cons_self _ _
    · show (1429:ℚ)/100 ≠ ((1:ℕ):ℚ) / (ex7T.nrows : ℚ) * 100
      rw [hnr7]
      norm_num
  · rw [hts, hr, hnr7]
    norm_num

end DFI
